import Mathlib

/-!
Shallow embedding of the hogtown villager generator (src/villager.tsx).

Randomness is modelled as a stream of natural numbers together with a
position; each dice sample reads one stream value and reduces it modulo
the number of sides, mirroring Math.floor(Math.random() * sides) + 1,
which always lands in [1, sides].  Reference tables are passed
explicitly (the source loads them from TSV files at startup).  Reads of
a missing column (JS undefined) are modelled with Option; call sites
where the source would throw on undefined return none.
-/

/-- The random source: an arbitrary stream of naturals and a cursor. -/
structure Rng where
  stream : Nat → Nat
  idx : Nat

/-- One uniform sample from [1, sides]; mirrors Math.floor(Math.random() * sides) + 1. -/
def sample (sides : Nat) (r : Rng) : Nat × Rng :=
  (r.stream r.idx % sides + 1, ⟨r.stream, r.idx + 1⟩)

/-- roll: sum of count independent samples from [1, sides] (villager.tsx lines 43-48). -/
def roll : Nat → Nat → Rng → Nat × Rng
  | 0, _, r => (0, r)
  | n + 1, sides, r =>
    let p := sample sides r
    let q := roll n sides p.2
    (p.1 + q.1, q.2)

/-- getMod: the ability-modifier step table (villager.tsx lines 50-58). -/
def getMod (score : Int) : Int :=
  if score = 3 then -3
  else if score ≤ 5 then -2
  else if score ≤ 8 then -1
  else if score ≤ 12 then 0
  else if score ≤ 15 then 1
  else if score ≤ 17 then 2
  else 3

/-- Decimal value of a list of digit characters, as JS Number on a digit string. -/
def charsToNat (l : List Char) : Nat :=
  l.foldl (fun a c => a * 10 + (c.toNat - 48)) 0

/-- JS Number() restricted to the shapes the tables use: the empty string is 0,
a nonempty all-digit string is its decimal value, anything else is NaN (none). -/
def numberOfChars (s : List Char) : Option Int :=
  if s = [] then some 0
  else if s.all Char.isDigit then some (charsToNat s) else none

/-- parseRange: split on "-" and read one or two numbers (villager.tsx lines 128-131). -/
def parseRange (s : List Char) : Option Int × Option Int :=
  match (s.splitOn '-').map numberOfChars with
  | [v] => (v, v)
  | v0 :: v1 :: _ => (v0, v1)
  | [] => (none, none)

/-- The find-predicate of getOccupation: rollResult >= min && rollResult <= max;
a NaN bound compares false in JS, so the row does not match. -/
def rangeMatches (rollResult : Int) (s : List Char) : Bool :=
  match parseRange s with
  | (some lo, some hi) => decide (lo ≤ rollResult ∧ rollResult ≤ hi)
  | _ => false

/-- JS String.prototype.trim on a character list. -/
def trimChars (s : List Char) : List Char :=
  ((s.dropWhile Char.isWhitespace).reverse.dropWhile Char.isWhitespace).reverse

/-- Loop of parseGear: split on commas at parenthesis depth zero
(villager.tsx lines 261-277); depth is updated before the comma test. -/
def parseGearAux : List Char → List Char → Int → List String
  | [], current, _ =>
    if trimChars current ≠ [] then [String.mk (trimChars current)] else []
  | c :: cs, current, depth =>
    let d := if c = '(' then depth + 1 else if c = ')' then depth - 1 else depth
    if c = ',' ∧ d = 0 then String.mk (trimChars current) :: parseGearAux cs [] d
    else parseGearAux cs (current ++ [c]) d

/-- parseGear: split a gear string on top-level commas (villager.tsx lines 261-277). -/
def parseGear (gearStr : String) : List String :=
  parseGearAux gearStr.toList [] 0

/-- process.argv[2] || "1": the empty string is falsy in JS. -/
def argString : Option String → String
  | none => "1"
  | some s => if s = "" then "1" else s

/-- parseInt(s, 10): skip leading whitespace, optional sign, then leading digits;
NaN (none) when no digits follow. -/
def parseIntJS (s : String) : Option Int :=
  match s.toList.dropWhile Char.isWhitespace with
  | '-' :: t =>
    let ds := t.takeWhile Char.isDigit
    if ds = [] then none else some (-(charsToNat ds : Int))
  | '+' :: t =>
    let ds := t.takeWhile Char.isDigit
    if ds = [] then none else some ((charsToNat ds : Int))
  | l =>
    let ds := l.takeWhile Char.isDigit
    if ds = [] then none else some ((charsToNat ds : Int))

/-- The villager count of an invocation: parseInt of the argument (default "1"),
then Array.from's ToLength, which maps NaN and negatives to 0 (villager.tsx 399-400). -/
def numVillagers (argv2 : Option String) : Nat :=
  match parseIntJS (argString argv2) with
  | none => 0
  | some n => n.toNat

/-- A fixed concrete random source whose samples are all 1. -/
def rng0 : Rng := ⟨fun _ => 0, 0⟩

-- Bounds for a single sample.
theorem sample_bounds (sides : Nat) (r : Rng) (hs : 1 ≤ sides) :
    1 ≤ (sample sides r).1 ∧ (sample sides r).1 ≤ sides := by
  unfold sample
  refine ⟨Nat.le_add_left 1 _, ?_⟩
  have := Nat.mod_lt (r.stream r.idx) (by omega : 0 < sides)
  omega

-- Bounds for a dice sum, for every count.
theorem roll_bounds_aux (count sides : Nat) (r : Rng) (hs : 1 ≤ sides) :
    count ≤ (roll count sides r).1 ∧ (roll count sides r).1 ≤ count * sides := by
  induction count generalizing r with
  | zero => simp [roll]
  | succ n ih =>
    have hsamp := sample_bounds sides r hs
    have hrec := ih (sample sides r).2
    simp only [roll]
    constructor
    · omega
    · have : (n + 1) * sides = n * sides + sides := by ring
      omega

/-- C7: for count, sides >= 1, roll count sides is the sum of count independent
uniform samples from [1, sides] and lies in the inclusive interval
[count, count * sides]; in particular every 3d6 ability score lies in [3, 18]. -/
theorem roll_in_range (count sides : Nat) (r : Rng) (hc : 1 ≤ count) (hs : 1 ≤ sides) :
    (count ≤ (roll count sides r).1 ∧ (roll count sides r).1 ≤ count * sides) ∧
    (∀ r' : Rng, 3 ≤ (roll 3 6 r').1 ∧ (roll 3 6 r').1 ≤ 18) := by
  refine ⟨roll_bounds_aux count sides r hs, fun r' => ?_⟩
  have := roll_bounds_aux 3 6 r' (by omega)
  omega

/-- C7 witness: the bounds hold at the concrete call roll 2 6 rng0. -/
theorem roll_in_range_witness :
    ((2 ≤ (roll 2 6 rng0).1 ∧ (roll 2 6 rng0).1 ≤ 2 * 6) ∧
      (∀ r' : Rng, 3 ≤ (roll 3 6 r').1 ∧ (roll 3 6 r').1 ≤ 18)) :=
  roll_in_range 2 6 rng0 (by decide) (by decide)

/-- C3: getMod is total on scores 3..20 and matches the step table exactly:
-3 at 3, -2 on 4-5, -1 on 6-8, 0 on 9-12, +1 on 13-15, +2 on 16-17, and +3
for every score at or above 18. -/
theorem getMod_matches_table :
    getMod 3 = -3 ∧
    (∀ s : Int, 4 ≤ s → s ≤ 5 → getMod s = -2) ∧
    (∀ s : Int, 6 ≤ s → s ≤ 8 → getMod s = -1) ∧
    (∀ s : Int, 9 ≤ s → s ≤ 12 → getMod s = 0) ∧
    (∀ s : Int, 13 ≤ s → s ≤ 15 → getMod s = 1) ∧
    (∀ s : Int, 16 ≤ s → s ≤ 17 → getMod s = 2) ∧
    (∀ s : Int, 18 ≤ s → getMod s = 3) := by
  refine ⟨by decide, ?_, ?_, ?_, ?_, ?_, ?_⟩ <;>
    (intro s h1; unfold getMod) <;>
    first
      | (intro h2; split_ifs <;> omega)
      | (split_ifs <;> omega)

/-- C3 witness: the table values at the boundary scores 5, 8, 12, 15, 17, 18. -/
theorem getMod_matches_table_witness :
    getMod 5 = -2 ∧ getMod 8 = -1 ∧ getMod 12 = 0 ∧ getMod 15 = 1 ∧
    getMod 17 = 2 ∧ getMod 18 = 3 :=
  ⟨getMod_matches_table.2.1 5 (by decide) (by decide),
   getMod_matches_table.2.2.1 8 (by decide) (by decide),
   getMod_matches_table.2.2.2.1 12 (by decide) (by decide),
   getMod_matches_table.2.2.2.2.1 15 (by decide) (by decide),
   getMod_matches_table.2.2.2.2.2.1 17 (by decide) (by decide),
   getMod_matches_table.2.2.2.2.2.2 18 (by decide)⟩

/-- C9: getMod is monotone non-decreasing on scores at or above 3, its value
always lies in [-3, 3], and the precondition is necessary since
getMod 2 = -2 exceeds getMod 3 = -3. -/
theorem getMod_monotone :
    (∀ s t : Int, 3 ≤ s → s ≤ t → getMod s ≤ getMod t) ∧
    (∀ s : Int, -3 ≤ getMod s ∧ getMod s ≤ 3) ∧
    getMod 2 = -2 ∧ getMod 3 = -3 := by
  refine ⟨?_, ?_, by decide, by decide⟩
  · intro s t h1 h2; unfold getMod; split_ifs <;> omega
  · intro s; unfold getMod; split_ifs <;> omega

/-- C9 witness: monotonicity and bounds at concrete scores. -/
theorem getMod_monotone_witness :
    getMod 4 ≤ getMod 16 ∧ (-3 ≤ getMod 11 ∧ getMod 11 ≤ 3) :=
  ⟨getMod_monotone.1 4 16 (by decide) (by decide), getMod_monotone.2.1 11⟩

/-- C5: occupation range matching is inclusive on both ends: for "5-9" the
rolls 5, 7, 9 match while 4 and 10 do not; for the single number "42"
exactly the roll 42 matches. -/
theorem rangeMatches_inclusive :
    rangeMatches 5 "5-9".toList = true ∧
    rangeMatches 7 "5-9".toList = true ∧
    rangeMatches 9 "5-9".toList = true ∧
    rangeMatches 4 "5-9".toList = false ∧
    rangeMatches 10 "5-9".toList = false ∧
    rangeMatches 42 "42".toList = true ∧
    (∀ m : Int, m ≠ 42 → rangeMatches m "42".toList = false) := by
  refine ⟨by decide, by decide, by decide, by decide, by decide, by decide, ?_⟩
  intro m hm
  have h : parseRange "42".toList = (some 42, some 42) := by decide
  unfold rangeMatches
  rw [h]
  simp only [decide_eq_false_iff_not, not_and, not_le]
  omega

/-- C5 witness: the roll 41 does not match the single-number range "42". -/
theorem rangeMatches_inclusive_witness :
    rangeMatches 41 "42".toList = false :=
  rangeMatches_inclusive.2.2.2.2.2.2 41 (by decide)

/-- C6: parseGear splits only on commas at parenthesis depth zero, so
"cage (1 wt), 2 ferrets" yields exactly the two items
["cage (1 wt)", "2 ferrets"], not three. -/
theorem parseGear_top_level_commas :
    parseGear "cage (1 wt), 2 ferrets" = ["cage (1 wt)", "2 ferrets"] ∧
    (parseGear "cage (1 wt), 2 ferrets").length = 2 := by
  constructor <;> decide

/-! ### Gear template expansion (villager.tsx lines 105-126) -/

/-- The decimal digit character of n % 10. -/
def digitChar (n : Nat) : Char :=
  "0123456789".toList.getD (n % 10) '0'

/-- Fuel-driven core of decimal rendering; structural so that it computes. -/
def natToCharsGo : Nat → Nat → List Char
  | 0, _ => []
  | fuel + 1, n =>
    if n < 10 then [digitChar n]
    else natToCharsGo fuel (n / 10) ++ [digitChar n]

/-- Decimal rendering of a natural number, as JS String(number) on an
integer; the fuel n + 1 always suffices since n / 10 shrinks. -/
def natToChars (n : Nat) : List Char := natToCharsGo (n + 1) n

/-- Greedy split of a leading run of decimal digits, as the regex fragment d+. -/
def takeDigits : List Char → List Char × List Char
  | [] => ([], [])
  | c :: cs =>
    if c.isDigit then
      let p := takeDigits cs
      (c :: p.1, p.2)
    else ([], c :: cs)

theorem takeDigits_rest_le (l : List Char) : (takeDigits l).2.length ≤ l.length := by
  induction l with
  | nil => simp [takeDigits]
  | cons c cs ih =>
    rw [takeDigits]
    split
    · simpa using Nat.le_succ_of_le ih
    · simp

/-- Match the dice token at the head of a string: an opening brace, one or
more digits, the letter d, one or more digits, a closing brace.  Returns the
two numbers and the rest of the input, as the first regex of
expandGearTemplate does. -/
def matchDice (c : Char) (cs : List Char) : Option (Nat × Nat × List Char) :=
  if c = '{' then
    if (takeDigits cs).1 = [] then none
    else
      match (takeDigits cs).2 with
      | x :: rest2 =>
        if x = 'd' then
          if (takeDigits rest2).1 = [] then none
          else
            match (takeDigits rest2).2 with
            | y :: rest4 =>
              if y = '}' then
                some (charsToNat (takeDigits cs).1, charsToNat (takeDigits rest2).1, rest4)
              else none
            | [] => none
        else none
      | [] => none
  else none

theorem matchDice_rest_le {c : Char} {cs : List Char} {a b : Nat} {rest : List Char}
    (h : matchDice c cs = some (a, b, rest)) : rest.length ≤ cs.length := by
  unfold matchDice at h
  split at h
  case isTrue =>
    split at h
    case isTrue => exact absurd h (by simp)
    case isFalse =>
      split at h
      case h_1 x rest2 heq =>
        have h1 : rest2.length + 1 ≤ cs.length := by
          have := takeDigits_rest_le cs
          rw [heq] at this
          simpa using this
        split at h
        case isTrue =>
          split at h
          case isTrue => exact absurd h (by simp)
          case isFalse =>
            split at h
            case h_1 y rest4 heq2 =>
              have h2 : rest4.length + 1 ≤ rest2.length := by
                have := takeDigits_rest_le rest2
                rw [heq2] at this
                simpa using this
              split at h
              case isTrue =>
                have hr : rest4 = rest := by
                  simpa using congrArg (fun o => o.map (fun x => x.2.2)) h
                have hl : rest4.length = rest.length := by rw [hr]
                omega
              case isFalse => exact absurd h (by simp)
            case h_2 => exact absurd h (by simp)
        case isFalse => exact absurd h (by simp)
      case h_2 => exact absurd h (by simp)
  case isFalse => exact absurd h (by simp)

/-- Fuel-driven scan of the dice-token replace pass; every step consumes at
least one input character, so fuel = input length always suffices. -/
def replaceDiceGo : Nat → List Char → Rng → List Char × Rng
  | 0, s, r => (s, r)
  | _ + 1, [], r => ([], r)
  | fuel + 1, c :: cs, r =>
    match matchDice c cs with
    | some (cnt, sides, rest) =>
      let p := roll cnt sides r
      let q := replaceDiceGo fuel rest p.2
      (natToChars p.1 ++ q.1, q.2)
    | none =>
      let q := replaceDiceGo fuel cs r
      (c :: q.1, q.2)

/-- First replace pass of expandGearTemplate: every dice token, scanned left
to right without rescanning replacement text, is replaced by the rendered
dice sum (villager.tsx lines 107-109). -/
def replaceDice (s : List Char) (r : Rng) : List Char × Rng :=
  replaceDiceGo s.length s r

theorem replaceDiceGo_fuel :
    ∀ fuel fuel' : Nat, ∀ s : List Char, ∀ r : Rng,
      s.length ≤ fuel → s.length ≤ fuel' →
      replaceDiceGo fuel s r = replaceDiceGo fuel' s r := by
  intro fuel
  induction fuel with
  | zero =>
    intro fuel' s r h h'
    cases s with
    | nil => cases fuel' <;> rfl
    | cons c cs => simp at h
  | succ n ih =>
    intro fuel' s r h h'
    cases s with
    | nil => cases fuel' <;> rfl
    | cons c cs =>
      cases fuel' with
      | zero => simp at h'
      | succ m =>
        simp only [replaceDiceGo]
        cases hm : matchDice c cs with
        | some val =>
          obtain ⟨cnt, sides, rest⟩ := val
          have hr := matchDice_rest_le hm
          simp only [List.length_cons] at h h'
          dsimp only
          rw [ih m rest (roll cnt sides r).2 (by omega) (by omega)]
        | none =>
          simp only [List.length_cons] at h h'
          dsimp only
          rw [ih m cs r (by omega) (by omega)]

theorem replaceDice_nil (r : Rng) : replaceDice [] r = ([], r) := rfl

theorem replaceDice_cons_match {c : Char} {cs : List Char} {cnt sides : Nat}
    {rest : List Char} (r : Rng) (h : matchDice c cs = some (cnt, sides, rest)) :
    replaceDice (c :: cs) r =
      (natToChars (roll cnt sides r).1 ++ (replaceDice rest (roll cnt sides r).2).1,
       (replaceDice rest (roll cnt sides r).2).2) := by
  unfold replaceDice
  simp only [List.length_cons, replaceDiceGo, h]
  rw [replaceDiceGo_fuel cs.length rest.length rest (roll cnt sides r).2
    (matchDice_rest_le h) le_rfl]

theorem replaceDice_cons_none {c : Char} {cs : List Char} (r : Rng)
    (h : matchDice c cs = none) :
    replaceDice (c :: cs) r = (c :: (replaceDice cs r).1, (replaceDice cs r).2) := by
  unfold replaceDice
  simp only [List.length_cons, replaceDiceGo, h]

/-- Whether pat occurs at the head of the second list. -/
def startsWith : List Char → List Char → Bool
  | [], _ => true
  | _ :: _, [] => false
  | p :: ps, c :: cs => p == c && startsWith ps cs

/-- Fuel-driven scan of a literal replace pass. -/
def replaceLitGo (pat : List Char) (f : Rng → List Char × Rng) :
    Nat → List Char → Rng → List Char × Rng
  | 0, s, r => (s, r)
  | _ + 1, [], r => ([], r)
  | fuel + 1, c :: cs, r =>
    if pat ≠ [] ∧ startsWith pat (c :: cs) = true then
      let p := f r
      let q := replaceLitGo pat f fuel ((c :: cs).drop pat.length) p.2
      (p.1 ++ q.1, q.2)
    else
      let q := replaceLitGo pat f fuel cs r
      (c :: q.1, q.2)

/-- Global replacement of a fixed literal pattern, scanned left to right
without rescanning replacement text; the replacement text is drawn from the
random source at each occurrence.  Models the literal-regex replace passes of
expandGearTemplate. -/
def replaceLit (pat : List Char) (f : Rng → List Char × Rng)
    (s : List Char) (r : Rng) : List Char × Rng :=
  replaceLitGo pat f s.length s r

theorem replaceLitGo_fuel (pat : List Char) (f : Rng → List Char × Rng) :
    ∀ fuel fuel' : Nat, ∀ s : List Char, ∀ r : Rng,
      s.length ≤ fuel → s.length ≤ fuel' →
      replaceLitGo pat f fuel s r = replaceLitGo pat f fuel' s r := by
  intro fuel
  induction fuel with
  | zero =>
    intro fuel' s r h h'
    cases s with
    | nil => cases fuel' <;> rfl
    | cons c cs => simp at h
  | succ n ih =>
    intro fuel' s r h h'
    cases s with
    | nil => cases fuel' <;> rfl
    | cons c cs =>
      cases fuel' with
      | zero => simp at h'
      | succ m =>
        simp only [replaceLitGo]
        simp only [List.length_cons] at h h'
        split
        case isTrue hc =>
          have hp : 1 ≤ pat.length := by
            cases pat
            · exact absurd rfl hc.1
            · simp
          rw [ih m ((c :: cs).drop pat.length) (f r).2
            (by simp only [List.length_drop, List.length_cons]; omega)
            (by simp only [List.length_drop, List.length_cons]; omega)]
        case isFalse =>
          rw [ih m cs r (by omega) (by omega)]

theorem replaceLit_nil (pat : List Char) (f : Rng → List Char × Rng) (r : Rng) :
    replaceLit pat f [] r = ([], r) := rfl

theorem replaceLit_cons_match (pat : List Char) (f : Rng → List Char × Rng)
    {c : Char} {cs : List Char} (r : Rng) (hpat : pat ≠ [])
    (hs : startsWith pat (c :: cs) = true) :
    replaceLit pat f (c :: cs) r =
      ((f r).1 ++ (replaceLit pat f ((c :: cs).drop pat.length) (f r).2).1,
       (replaceLit pat f ((c :: cs).drop pat.length) (f r).2).2) := by
  have hp : 1 ≤ pat.length := by
    cases pat
    · exact absurd rfl hpat
    · simp
  unfold replaceLit
  simp only [List.length_cons, replaceLitGo, hpat, hs, ne_eq, not_false_iff,
    true_and, if_pos, and_self, not_true_eq_false]
  rw [replaceLitGo_fuel pat f cs.length ((c :: cs).drop pat.length).length
    ((c :: cs).drop pat.length) (f r).2
    (by simp only [List.length_drop, List.length_cons]; omega) le_rfl]

theorem replaceLit_cons_none (pat : List Char) (f : Rng → List Char × Rng)
    {c : Char} {cs : List Char} (r : Rng)
    (h : ¬(pat ≠ [] ∧ startsWith pat (c :: cs) = true)) :
    replaceLit pat f (c :: cs) r =
      (c :: (replaceLit pat f cs r).1, (replaceLit pat f cs r).2) := by
  unfold replaceLit
  simp only [List.length_cons, replaceLitGo, h, if_neg, not_false_iff]

/-- The fixed crop list (villager.tsx lines 76-87). -/
def CROPS : List String :=
  ["barley", "onions", "peppers", "potatoes", "squash",
   "rice", "wheat", "hops", "beets", "oats"]

/-- The fixed instrument list (villager.tsx lines 88-97). -/
def INSTRUMENTS : List String :=
  ["accordion (2 wt)", "drum (1 wt)", "fiddle (1 wt)", "flute",
   "guitar (1 wt)", "mbira", "horn (1 wt)", "banjo (1 wt)"]

/-- The fixed animal-trainer gear list (villager.tsx lines 98-103). -/
def ANIMAL_TRAINER_GEAR : List String :=
  ["leather gauntlet, falcon", "2 dogs, leashes",
   "monkey, music box (2 wt)", "cage (1 wt), 2 ferrets"]

def PAT_COMPOUND : List Char := ['{', '2', '+', '1', 'd', '4', '*', '2', '}']
def PAT_CROP : List Char := ['{', 'c', 'r', 'o', 'p', '}']
def PAT_INSTRUMENT : List Char :=
  ['{', 'i', 'n', 's', 't', 'r', 'u', 'm', 'e', 'n', 't', '}']
def PAT_ANIMAL : List Char :=
  ['{', 'a', 'n', 'i', 'm', 'a', 'l', '_', 't', 'r', 'a', 'i', 'n', 'e', 'r',
   '_', 'g', 'e', 'a', 'r', '}']
def PAT_POULTRY : List Char := ['{', 'p', 'o', 'u', 'l', 't', 'r', 'y', '}']

/-- Replacement for the poultry token: four bird phrases each with its own
dice roll, then a 1d4 pick among them (villager.tsx lines 117-125). -/
def poultryChoice (r : Rng) : List Char × Rng :=
  let p1 := roll 1 6 r
  let p2 := roll 1 6 p1.2
  let p3 := roll 1 4 p2.2
  let p4 := roll 1 4 p3.2
  let birds : List (List Char) :=
    [natToChars p1.1 ++ " chickens".toList,
     natToChars p2.1 ++ " ducks".toList,
     natToChars p3.1 ++ " geese".toList,
     natToChars p4.1 ++ " swans".toList]
  let sel := roll 1 4 p4.2
  (birds.getD (sel.1 - 1) [], sel.2)

/-- Replacement for the compound token: 2 + 1d4 * 2 (villager.tsx line 110). -/
def compoundChoice (r : Rng) : List Char × Rng :=
  let p := roll 1 4 r
  (natToChars (2 + p.1 * 2), p.2)

/-- Replacement for the crop token: 1d10 into CROPS (villager.tsx line 111). -/
def cropChoice (r : Rng) : List Char × Rng :=
  let p := roll 1 10 r
  ((CROPS.getD (p.1 - 1) "").toList, p.2)

/-- Replacement for the instrument token: 1d8 into INSTRUMENTS (line 112). -/
def instrumentChoice (r : Rng) : List Char × Rng :=
  let p := roll 1 8 r
  ((INSTRUMENTS.getD (p.1 - 1) "").toList, p.2)

/-- Replacement for the animal-trainer token: 1d4 into ANIMAL_TRAINER_GEAR
(villager.tsx lines 113-116). -/
def animalChoice (r : Rng) : List Char × Rng :=
  let p := roll 1 4 r
  ((ANIMAL_TRAINER_GEAR.getD (p.1 - 1) "").toList, p.2)

/-- expandGearTemplate: six replace passes run in sequence over the whole
string (villager.tsx lines 105-126). -/
def expandGearTemplate (template : List Char) (r : Rng) : List Char × Rng :=
  let s1 := replaceDice template r
  let s2 := replaceLit PAT_COMPOUND compoundChoice s1.1 s1.2
  let s3 := replaceLit PAT_CROP cropChoice s2.1 s2.2
  let s4 := replaceLit PAT_INSTRUMENT instrumentChoice s3.1 s3.2
  let s5 := replaceLit PAT_ANIMAL animalChoice s4.1 s4.2
  replaceLit PAT_POULTRY poultryChoice s5.1 s5.2

/-! ### Tables and per-villager generation (villager.tsx lines 64-240) -/

/-- The four loaded reference tables, header rows already dropped
(villager.tsx lines 71-74); passed explicitly since the TSV resources are
external to the program text. -/
structure Tables where
  occupationRows : List (List String)
  nameRows : List (List String)
  lookRows : List (List String)
  bondRows : List (List String)

/-- (row[3] as Species) || "Human": a missing or empty cell defaults to
Human, any other text passes through (villager.tsx line 145). -/
def speciesOf (cell : Option String) : String :=
  match cell with
  | none => "Human"
  | some s => if s = "" then "Human" else s

/-- The occupation data drawn from the matched row. -/
structure OccResult where
  name : String
  gear : String
  species : String
deriving DecidableEq

/-- The find predicate of getOccupation (villager.tsx lines 138-141); a row
whose range column is missing is modelled as not matching. -/
def occRowMatches (rollResult : Nat) (row : List String) : Bool :=
  rangeMatches (rollResult : Int) ((row.get? 0).getD "").toList

/-- getOccupation (villager.tsx lines 133-147): none models the non-null
assertion failing (no row matches) or the gear column being absent. -/
def getOccupation (occupationRows : List (List String)) (rollResult : Nat) (r : Rng) :
    Option (OccResult × Rng) :=
  match occupationRows.find? (occRowMatches rollResult) with
  | none => none
  | some row =>
    match row.get? 2 with
    | none => none
    | some tmpl =>
      let p := expandGearTemplate tmpl.toList r
      some (⟨(row.get? 1).getD "", String.mk p.1, speciesOf (row.get? 3)⟩, p.2)

/-- getName (villager.tsx lines 149-163): a 1d20 row pick, then a
species-dependent column; the default species flips 1d2, and on a 1 flips a
second 1d2 to choose the column. -/
def getName (nameRows : List (List String)) (species : String) (r : Rng) :
    Option (String × Rng) :=
  let p := roll 1 20 r
  match nameRows.get? (p.1 - 1) with
  | none => none
  | some row =>
    if species = "Elf" then (row.get? 4).map (fun s => (s, p.2))
    else if species = "Dwarf" then (row.get? 5).map (fun s => (s, p.2))
    else if species = "Halfling" then (row.get? 6).map (fun s => (s, p.2))
    else
      let q := roll 1 2 p.2
      if q.1 = 1 then
        let q2 := roll 1 2 q.2
        (row.get? q2.1).map (fun s => (s, q2.2))
      else (row.get? 3).map (fun s => (s, q.2))

/-- JS String.prototype.toLowerCase, character by character. -/
def toLowerStr (s : String) : String :=
  String.mk (s.toList.map Char.toLower)

/-- getLook (villager.tsx lines 165-174): five independent 1d20 row picks,
one column each, lower-cased and joined in a fixed order. -/
def getLook (lookRows : List (List String)) (r : Rng) : Option (String × Rng) :=
  let p1 := roll 1 20 r
  let p2 := roll 1 20 p1.2
  let p3 := roll 1 20 p2.2
  let p4 := roll 1 20 p3.2
  let p5 := roll 1 20 p4.2
  match (lookRows.get? (p1.1 - 1)).bind (fun row => row.get? 1),
        (lookRows.get? (p2.1 - 1)).bind (fun row => row.get? 2),
        (lookRows.get? (p3.1 - 1)).bind (fun row => row.get? 3),
        (lookRows.get? (p4.1 - 1)).bind (fun row => row.get? 4),
        (lookRows.get? (p5.1 - 1)).bind (fun row => row.get? 5) with
  | some face, some eyes, some hair, some body, some clothing =>
    some (toLowerStr face ++ " face, " ++ toLowerStr eyes ++ " eyes, " ++
      toLowerStr hair ++ " hair, " ++ toLowerStr body ++ " body, " ++
      toLowerStr clothing ++ " clothing", p5.2)
  | _, _, _, _, _ => none

/-- Replace the first occurrence of pat by repl, as the JS string form of
String.prototype.replace (villager.tsx line 179). -/
def replaceFirst (pat repl : List Char) : List Char → List Char
  | [] => []
  | c :: cs =>
    if startsWith pat (c :: cs) then repl ++ (c :: cs).drop pat.length
    else c :: replaceFirst pat repl cs

/-- getBond (villager.tsx lines 176-180): a 1d20 row pick, a 1d4 detail
column, and substitution of the detail into the ellipsis of column 0. -/
def getBond (bondRows : List (List String)) (r : Rng) : Option (String × Rng) :=
  let p := roll 1 20 r
  match bondRows.get? (p.1 - 1) with
  | none => none
  | some row =>
    let q := roll 1 4 p.2
    match row.get? q.1, row.get? 0 with
    | some detail, some tmpl =>
      some (String.mk (replaceFirst "...".toList detail.toList tmpl.toList), q.2)
    | _, _ => none

/-- getHeritageMoves (villager.tsx lines 182-199). -/
def getHeritageMoves (species : String) : List String :=
  if species = "Dwarf" then
    ["Etched in Stone: When you appraise an artificial item, object, or location, the GM will tell you something interesting about the one who made it, no questions asked."]
  else if species = "Elf" then
    ["These Elf Eyes: You see perfectly in the barest light and may focus your senses to Detect Magic at will."]
  else if species = "Halfling" then
    ["Lucky: When you Tempt Fate and score a 10+ you don’t suffer disadvantage and on a 12+ your luck rubs off; the nearest ally gains advantage on their next roll."]
  else []

/-- The seven ability scores (villager.tsx lines 15-23). -/
structure Stats where
  STR : Nat
  DEX : Nat
  CON : Nat
  INT : Nat
  WIS : Nat
  CHA : Nat
  LUC : Nat
deriving DecidableEq

/-- The seven derived modifiers (villager.tsx lines 24-32). -/
structure Mods where
  STR : Int
  DEX : Int
  CON : Int
  INT : Int
  WIS : Int
  CHA : Int
  LUC : Int
deriving DecidableEq

/-- The villager record (villager.tsx lines 10-39). -/
structure Villager where
  name : String
  species : String
  occupation : String
  look : String
  stats : Stats
  modifiers : Mods
  hp : Nat
  load : Nat
  damage : String
  gear : List String
  bond : String
  heritageMoves : List String
deriving DecidableEq

/-- generateVillager (villager.tsx lines 201-240): rolls and lookups are
threaded through the random source in the evaluation order of the source. -/
def generateVillager (t : Tables) (r : Rng) : Option (Villager × Rng) :=
  let pSTR := roll 3 6 r
  let pDEX := roll 3 6 pSTR.2
  let pCON := roll 3 6 pDEX.2
  let pINT := roll 3 6 pCON.2
  let pWIS := roll 3 6 pINT.2
  let pCHA := roll 3 6 pWIS.2
  let pLUC := roll 3 6 pCHA.2
  let stats : Stats := ⟨pSTR.1, pDEX.1, pCON.1, pINT.1, pWIS.1, pCHA.1, pLUC.1⟩
  let modifiers : Mods := ⟨getMod stats.STR, getMod stats.DEX, getMod stats.CON,
    getMod stats.INT, getMod stats.WIS, getMod stats.CHA, getMod stats.LUC⟩
  let pOcc := roll 1 100 pLUC.2
  match getOccupation t.occupationRows pOcc.1 pOcc.2 with
  | none => none
  | some (occ, r1) =>
    match getName t.nameRows occ.species r1 with
    | none => none
    | some (nm, r2) =>
      match getLook t.lookRows r2 with
      | none => none
      | some (lk, r3) =>
        match getBond t.bondRows r3 with
        | none => none
        | some (bd, r4) =>
          some (⟨nm, occ.species, occ.name, lk, stats, modifiers,
            stats.CON + 4, stats.STR + 4, "d4", [occ.gear], bd,
            getHeritageMoves occ.species⟩, r4)

/-- Array.from with length count, calling generateVillager once per slot
(villager.tsx line 400), threading the random source. -/
def genMany (t : Tables) : Nat → Rng → Option (List Villager × Rng)
  | 0, r => some ([], r)
  | n + 1, r =>
    match generateVillager t r with
    | none => none
    | some (v, r') =>
      match genMany t n r' with
      | none => none
      | some (vs, r'') => some (v :: vs, r'')

/-- The whole invocation: count from the argument, then that many villagers
(villager.tsx lines 399-401). -/
def villagersMain (t : Tables) (argv2 : Option String) (r : Rng) :
    Option (List Villager × Rng) :=
  genMany t (numVillagers argv2) r

/-- The gear items the card displays: each gear string split on top-level
commas (villager.tsx line 289). -/
def gearItems (v : Villager) : List String :=
  (v.gear.map parseGear).flatten

/-- Well-formed occupation table: the ranges jointly cover 1..100 and every
row has the three required columns. -/
def wellFormedOcc (rows : List (List String)) : Prop :=
  (∀ n : Nat, n < 101 → 1 ≤ n → (rows.find? (occRowMatches n)).isSome = true) ∧
  (∀ row ∈ rows, 3 ≤ row.length)

/-- Well-formed tables, as the spec's load-time validation describes: ranges
cover 1..100, and the name, look, and bond tables have at least 20 rows with
every column their schemas require. -/
def wellFormed (t : Tables) : Prop :=
  wellFormedOcc t.occupationRows ∧
  (20 ≤ t.nameRows.length ∧ ∀ row ∈ t.nameRows, 7 ≤ row.length) ∧
  (20 ≤ t.lookRows.length ∧ ∀ row ∈ t.lookRows, 6 ≤ row.length) ∧
  (20 ≤ t.bondRows.length ∧ ∀ row ∈ t.bondRows, 5 ≤ row.length)

instance : Decidable (wellFormedOcc rows) := by
  unfold wellFormedOcc
  infer_instance

instance : Decidable (wellFormed t) := by
  unfold wellFormed
  infer_instance

/-- A small concrete well-formed table set for witnesses. -/
def T0 : Tables :=
  ⟨[["1-100", "Farmer", "spade"]],
   List.replicate 20 ["h", "a", "b", "c", "d", "e", "f"],
   List.replicate 20 ["h", "a", "b", "c", "d", "e"],
   List.replicate 20 ["likes ...", "a", "b", "c", "d"]⟩

/-! ### Safety of per-villager generation (claims C2, C8, C10, C1) -/

theorem get?_isSome_of_lt {α : Type} (l : List α) (n : Nat) (h : n < l.length) :
    (l.get? n).isSome = true := by
  rw [List.get?_eq_getElem?]
  simp [List.getElem?_eq_getElem h]

theorem getName_isSome (nameRows : List (List String)) (species : String) (r : Rng)
    (hlen : 20 ≤ nameRows.length) (hcols : ∀ row ∈ nameRows, 7 ≤ row.length) :
    (getName nameRows species r).isSome = true := by
  unfold getName
  dsimp only
  have hb := roll_bounds_aux 1 20 r (by omega)
  have hidx : (roll 1 20 r).1 - 1 < nameRows.length := by omega
  obtain ⟨row, hrow⟩ := Option.isSome_iff_exists.mp (get?_isSome_of_lt _ _ hidx)
  rw [hrow]
  dsimp only
  have h7 : 7 ≤ row.length := hcols row (List.get?_mem hrow)
  have hq2 := roll_bounds_aux 1 2 (roll 1 20 r).2 (by omega)
  split_ifs
  · rw [Option.isSome_map']
    exact get?_isSome_of_lt _ _ (by omega)
  · rw [Option.isSome_map']
    exact get?_isSome_of_lt _ _ (by omega)
  · rw [Option.isSome_map']
    exact get?_isSome_of_lt _ _ (by omega)
  · rw [Option.isSome_map']
    have := roll_bounds_aux 1 2 (roll 1 2 (roll 1 20 r).2).2 (by omega)
    exact get?_isSome_of_lt _ _ (by omega)
  · rw [Option.isSome_map']
    exact get?_isSome_of_lt _ _ (by omega)

theorem getLook_isSome (lookRows : List (List String)) (r : Rng)
    (hlen : 20 ≤ lookRows.length) (hcols : ∀ row ∈ lookRows, 6 ≤ row.length) :
    (getLook lookRows r).isSome = true := by
  unfold getLook
  dsimp only
  have hcell : ∀ r' : Rng, ∀ k : Nat, k < 6 →
      ((lookRows.get? ((roll 1 20 r').1 - 1)).bind (fun row => row.get? k)).isSome = true := by
    intro r' k hk
    have hb := roll_bounds_aux 1 20 r' (by omega)
    obtain ⟨row, hrow⟩ := Option.isSome_iff_exists.mp
      (get?_isSome_of_lt lookRows ((roll 1 20 r').1 - 1) (by omega))
    rw [hrow]
    have h6 : 6 ≤ row.length := hcols row (List.get?_mem hrow)
    exact get?_isSome_of_lt _ _ (by omega)
  obtain ⟨f, hf⟩ := Option.isSome_iff_exists.mp (hcell r 1 (by omega))
  obtain ⟨e, he⟩ := Option.isSome_iff_exists.mp (hcell (roll 1 20 r).2 2 (by omega))
  obtain ⟨ha, hha⟩ := Option.isSome_iff_exists.mp
    (hcell (roll 1 20 (roll 1 20 r).2).2 3 (by omega))
  obtain ⟨b, hb⟩ := Option.isSome_iff_exists.mp
    (hcell (roll 1 20 (roll 1 20 (roll 1 20 r).2).2).2 4 (by omega))
  obtain ⟨cl, hcl⟩ := Option.isSome_iff_exists.mp
    (hcell (roll 1 20 (roll 1 20 (roll 1 20 (roll 1 20 r).2).2).2).2 5 (by omega))
  rw [hf, he, hha, hb, hcl]
  rfl

theorem getBond_isSome (bondRows : List (List String)) (r : Rng)
    (hlen : 20 ≤ bondRows.length) (hcols : ∀ row ∈ bondRows, 5 ≤ row.length) :
    (getBond bondRows r).isSome = true := by
  unfold getBond
  dsimp only
  have hb := roll_bounds_aux 1 20 r (by omega)
  obtain ⟨row, hrow⟩ := Option.isSome_iff_exists.mp
    (get?_isSome_of_lt bondRows ((roll 1 20 r).1 - 1) (by omega))
  rw [hrow]
  dsimp only
  have h5 : 5 ≤ row.length := hcols row (List.get?_mem hrow)
  have hq := roll_bounds_aux 1 4 (roll 1 20 r).2 (by omega)
  obtain ⟨detail, hdet⟩ := Option.isSome_iff_exists.mp
    (get?_isSome_of_lt row (roll 1 4 (roll 1 20 r).2).1 (by omega))
  obtain ⟨tmpl, htm⟩ := Option.isSome_iff_exists.mp
    (get?_isSome_of_lt row 0 (by omega))
  rw [hdet, htm]
  rfl

theorem getOccupation_isSome (rows : List (List String)) (n : Nat) (r : Rng)
    (hocc : wellFormedOcc rows) (h1 : 1 ≤ n) (h2 : n ≤ 100) :
    (getOccupation rows n r).isSome = true := by
  unfold getOccupation
  obtain ⟨row, hrow⟩ := Option.isSome_iff_exists.mp (hocc.1 n (by omega) h1)
  rw [hrow]
  dsimp only
  have hl : 3 ≤ row.length := hocc.2 row (List.mem_of_find?_eq_some hrow)
  obtain ⟨tmpl, htm⟩ := Option.isSome_iff_exists.mp (get?_isSome_of_lt row 2 (by omega))
  rw [htm]
  rfl

/-- Once the tables pass load-time validation, per-villager generation has no
failure mode: the occupation lookup and every table index succeed for every
sequence of dice outcomes. -/
theorem generateVillager_isSome (t : Tables) (h : wellFormed t) (r : Rng) :
    (generateVillager t r).isSome = true := by
  obtain ⟨hocc, ⟨hn1, hn2⟩, ⟨hl1, hl2⟩, ⟨hb1, hb2⟩⟩ := h
  unfold generateVillager
  dsimp only
  have hd100 := roll_bounds_aux 1 100
    (roll 3 6 (roll 3 6 (roll 3 6 (roll 3 6 (roll 3 6 (roll 3 6 (roll 3 6 r).2).2).2).2).2).2).2
    (by omega)
  obtain ⟨oc, hoc⟩ := Option.isSome_iff_exists.mp
    (getOccupation_isSome t.occupationRows
      (roll 1 100 (roll 3 6 (roll 3 6 (roll 3 6 (roll 3 6 (roll 3 6 (roll 3 6 (roll 3 6 r).2).2).2).2).2).2).2).1
      (roll 1 100 (roll 3 6 (roll 3 6 (roll 3 6 (roll 3 6 (roll 3 6 (roll 3 6 (roll 3 6 r).2).2).2).2).2).2).2).2
      hocc (by omega) (by omega))
  obtain ⟨occ, r1⟩ := oc
  rw [hoc]
  dsimp only
  obtain ⟨nm, hnm⟩ := Option.isSome_iff_exists.mp
    (getName_isSome t.nameRows occ.species r1 hn1 hn2)
  obtain ⟨nmv, r2⟩ := nm
  rw [hnm]
  dsimp only
  obtain ⟨lk, hlk⟩ := Option.isSome_iff_exists.mp (getLook_isSome t.lookRows r2 hl1 hl2)
  obtain ⟨lkv, r3⟩ := lk
  rw [hlk]
  dsimp only
  obtain ⟨bd, hbd⟩ := Option.isSome_iff_exists.mp (getBond_isSome t.bondRows r3 hb1 hb2)
  obtain ⟨bdv, r4⟩ := bd
  rw [hbd]
  rfl

/-- The per-record invariants of a villager: every ability score in [3, 18],
each modifier the step function of its score, hp and load derived from CON
and STR, fixed damage, a single gear entry, and heritage moves determined by
species. -/
def villagerInvariants (v : Villager) : Prop :=
  (3 ≤ v.stats.STR ∧ v.stats.STR ≤ 18) ∧
  (3 ≤ v.stats.DEX ∧ v.stats.DEX ≤ 18) ∧
  (3 ≤ v.stats.CON ∧ v.stats.CON ≤ 18) ∧
  (3 ≤ v.stats.INT ∧ v.stats.INT ≤ 18) ∧
  (3 ≤ v.stats.WIS ∧ v.stats.WIS ≤ 18) ∧
  (3 ≤ v.stats.CHA ∧ v.stats.CHA ≤ 18) ∧
  (3 ≤ v.stats.LUC ∧ v.stats.LUC ≤ 18) ∧
  v.modifiers = ⟨getMod v.stats.STR, getMod v.stats.DEX, getMod v.stats.CON,
    getMod v.stats.INT, getMod v.stats.WIS, getMod v.stats.CHA, getMod v.stats.LUC⟩ ∧
  v.hp = v.stats.CON + 4 ∧ v.load = v.stats.STR + 4 ∧ v.damage = "d4" ∧
  v.gear.length = 1 ∧ v.heritageMoves = getHeritageMoves v.species

theorem generateVillager_spec {t : Tables} {r r' : Rng} {v : Villager}
    (h : generateVillager t r = some (v, r')) : villagerInvariants v := by
  unfold generateVillager at h
  dsimp only at h
  rcases hoc : getOccupation t.occupationRows
      (roll 1 100 (roll 3 6 (roll 3 6 (roll 3 6 (roll 3 6 (roll 3 6 (roll 3 6 (roll 3 6 r).2).2).2).2).2).2).2).1
      (roll 1 100 (roll 3 6 (roll 3 6 (roll 3 6 (roll 3 6 (roll 3 6 (roll 3 6 (roll 3 6 r).2).2).2).2).2).2).2).2
    with _ | ⟨occ, r1⟩ <;> rw [hoc] at h
  · exact absurd h (by simp)
  dsimp only at h
  rcases hnm : getName t.nameRows occ.species r1 with _ | ⟨nmv, r2⟩ <;> rw [hnm] at h
  · exact absurd h (by simp)
  dsimp only at h
  rcases hlk : getLook t.lookRows r2 with _ | ⟨lkv, r3⟩ <;> rw [hlk] at h
  · exact absurd h (by simp)
  dsimp only at h
  rcases hbd : getBond t.bondRows r3 with _ | ⟨bdv, r4⟩ <;> rw [hbd] at h
  · exact absurd h (by simp)
  dsimp only at h
  rw [Option.some.injEq, Prod.mk.injEq] at h
  obtain ⟨hv, -⟩ := h
  subst hv
  unfold villagerInvariants
  dsimp only
  refine ⟨?_, ?_, ?_, ?_, ?_, ?_, ?_, rfl, rfl, rfl, rfl, rfl, rfl⟩ <;>
    exact (roll_bounds_aux 3 6 _ (by omega))

/-- C2: under well-formed tables (occupation ranges covering 1..100 and the
name, look, bond tables having 20 rows with all required columns),
generateVillager never fails: the occupation lookup finds a row and every
row and column index is in range, for every sequence of dice outcomes; the
constant-list picks inside expandGearTemplate are in range by construction. -/
theorem generateVillager_never_fails (t : Tables) (h : wellFormed t) :
    (∀ r : Rng, (generateVillager t r).isSome = true) ∧
    (∀ r : Rng, (roll 1 10 r).1 - 1 < CROPS.length ∧
      (roll 1 8 r).1 - 1 < INSTRUMENTS.length ∧
      (roll 1 4 r).1 - 1 < ANIMAL_TRAINER_GEAR.length ∧
      (roll 1 20 r).1 - 1 < 20) := by
  refine ⟨generateVillager_isSome t h, fun r => ?_⟩
  have h10 := roll_bounds_aux 1 10 r (by omega)
  have h8 := roll_bounds_aux 1 8 r (by omega)
  have h4 := roll_bounds_aux 1 4 r (by omega)
  have h20 := roll_bounds_aux 1 20 r (by omega)
  refine ⟨by simp [CROPS]; omega, by simp [INSTRUMENTS]; omega,
    by simp [ANIMAL_TRAINER_GEAR]; omega, by omega⟩

/-- C2 witness: generation succeeds on concrete well-formed tables. -/
theorem generateVillager_never_fails_witness :
    (generateVillager T0 rng0).isSome = true ∧
    ((roll 1 10 rng0).1 - 1 < CROPS.length ∧
      (roll 1 8 rng0).1 - 1 < INSTRUMENTS.length ∧
      (roll 1 4 rng0).1 - 1 < ANIMAL_TRAINER_GEAR.length ∧
      (roll 1 20 rng0).1 - 1 < 20) :=
  ⟨(generateVillager_never_fails T0 (by decide)).1 rng0,
   (generateVillager_never_fails T0 (by decide)).2 rng0⟩

/-- The villager produced by the all-ones random source on the tables T0. -/
def v0 : Villager :=
  ⟨"a", "Human", "Farmer", "a face, b eyes, c hair, d body, e clothing",
   ⟨3, 3, 3, 3, 3, 3, 3⟩, ⟨-3, -3, -3, -3, -3, -3, -3⟩, 7, 7, "d4",
   ["spade"], "likes a", []⟩

/-- C8: every generated villager has hp = CON + 4, load = STR + 4, damage
"d4", with CON and STR in [3, 18]. -/
theorem hp_load_damage (t : Tables) (r : Rng) (v : Villager)
    (h : (generateVillager t r).map Prod.fst = some v) :
    v.hp = v.stats.CON + 4 ∧ v.load = v.stats.STR + 4 ∧ v.damage = "d4" ∧
    (3 ≤ v.stats.CON ∧ v.stats.CON ≤ 18) ∧ (3 ≤ v.stats.STR ∧ v.stats.STR ≤ 18) := by
  rcases hg : generateVillager t r with _ | ⟨v', r'⟩ <;> rw [hg] at h
  · exact absurd h (by simp)
  · have hv : v' = v := by simpa using h
    subst hv
    obtain ⟨hSTR, hDEX, hCON, hINT, hWIS, hCHA, hLUC, hmods, hhp, hload, hdam,
      hgear, hher⟩ := generateVillager_spec hg
    exact ⟨hhp, hload, hdam, hCON, hSTR⟩

/-- C8 witness: the derived fields at a concrete generated villager. -/
theorem hp_load_damage_witness :
    v0.hp = v0.stats.CON + 4 ∧ v0.load = v0.stats.STR + 4 ∧ v0.damage = "d4" ∧
    (3 ≤ v0.stats.CON ∧ v0.stats.CON ≤ 18) ∧ (3 ≤ v0.stats.STR ∧ v0.stats.STR ≤ 18) :=
  hp_load_damage T0 rng0 v0 (by decide)

/-- C10: every generated villager's gear field is exactly a one-element list
holding the expanded gear string of the matched occupation row; the card's
displayed items are parseGear of that single string. -/
theorem gear_single_entry (t : Tables) (r : Rng) (v : Villager)
    (h : (generateVillager t r).map Prod.fst = some v) :
    v.gear.length = 1 ∧ ∃ g, v.gear = [g] ∧ gearItems v = parseGear g := by
  rcases hg : generateVillager t r with _ | ⟨v', r'⟩ <;> rw [hg] at h
  · exact absurd h (by simp)
  · have hv : v' = v := by simpa using h
    subst hv
    obtain ⟨hSTR, hDEX, hCON, hINT, hWIS, hCHA, hLUC, hmods, hhp, hload, hdam,
      hlen, hher⟩ := generateVillager_spec hg
    obtain ⟨g, hgear⟩ := List.length_eq_one.mp hlen
    exact ⟨hlen, g, hgear, by simp [gearItems, hgear]⟩

/-- C10 witness: at a concrete generated villager the gear list is
one-element. -/
theorem gear_single_entry_witness : v0.gear.length = 1 :=
  (gear_single_entry T0 rng0 v0 (by decide)).1

theorem genMany_spec (t : Tables) (h : wellFormed t) :
    ∀ n : Nat, ∀ r : Rng, ∃ vs : List Villager, ∃ r' : Rng,
      genMany t n r = some (vs, r') ∧ vs.length = n ∧
      ∀ v ∈ vs, villagerInvariants v := by
  intro n
  induction n with
  | zero => exact fun r => ⟨[], r, rfl, rfl, by simp⟩
  | succ m ih =>
    intro r
    obtain ⟨p, hp⟩ := Option.isSome_iff_exists.mp (generateVillager_isSome t h r)
    obtain ⟨v, r1⟩ := p
    obtain ⟨vs, r', hg, hlen, hinv⟩ := ih r1
    refine ⟨v :: vs, r', ?_, by simp [hlen], ?_⟩
    · simp only [genMany, hp, hg]
    · intro w hw
      rcases List.mem_cons.mp hw with hw | hw
      · exact hw ▸ generateVillager_spec hp
      · exact hinv w hw

/-- C1 (amended): a numeric argument N yields exactly N villager records,
each satisfying the per-record invariants; an absent (or empty) argument
defaults the count to 1 and yields one record; a non-numeric argument parses
to NaN, which array construction treats as zero records; an explicit 0
yields zero records. -/
theorem invocation_count (t : Tables) (h : wellFormed t) :
    (∀ argv2 : Option String, ∀ r : Rng,
      ∃ vs : List Villager, ∃ r' : Rng,
        villagersMain t argv2 r = some (vs, r') ∧ vs.length = numVillagers argv2 ∧
        ∀ v ∈ vs, villagerInvariants v) ∧
    numVillagers none = 1 ∧
    numVillagers (some "") = 1 ∧
    numVillagers (some "villager") = 0 ∧
    numVillagers (some "0") = 0 ∧
    numVillagers (some "3") = 3 ∧
    (∀ s : String, ∀ k : Int, parseIntJS s = some k →
      numVillagers (some s) = k.toNat) := by
  refine ⟨fun argv2 r => genMany_spec t h (numVillagers argv2) r,
    by decide, by decide, by decide, by decide, by decide, ?_⟩
  intro s k hk
  unfold numVillagers argString
  by_cases hs : s = ""
  · subst hs
    have : parseIntJS "" = none := by decide
    rw [this] at hk
    exact absurd hk (by simp)
  · simp only [hs, if_neg, if_false]
    rw [hk]

/-- C1 witness: three records are generated for count 3 on concrete tables. -/
theorem invocation_count_witness : (villagersMain T0 (some "3") rng0).isSome = true := by
  obtain ⟨vs, r', hm, hlen, hinv⟩ :=
    (invocation_count T0 (by decide)).1 (some "3") rng0
  rw [hm]
  rfl

/-- C1 counterexample: with an absent argument the program parses the
default "1" and generates one villager record, not zero as the claim
states. -/
theorem absent_argument_yields_one :
    numVillagers none = 1 ∧ numVillagers none ≠ 0 ∧
    (villagersMain T0 none rng0).map (fun p => p.1.length) = some 1 := by
  refine ⟨by decide, by decide, by decide⟩

/-! ### Gear template expansion: totality and identity (claim C4) -/

/-- Whether the dice token occurs anywhere in the string. -/
def hasDiceTok : List Char → Bool
  | [] => false
  | c :: cs => (matchDice c cs).isSome || hasDiceTok cs

/-- Whether the fixed literal pattern occurs anywhere in the string. -/
def hasLitTok (pat : List Char) : List Char → Bool
  | [] => startsWith pat []
  | c :: cs => startsWith pat (c :: cs) || hasLitTok pat cs

/-- A string containing no occurrence of any supported bracket token. -/
def tokenFree (s : List Char) : Prop :=
  hasDiceTok s = false ∧ hasLitTok PAT_COMPOUND s = false ∧
  hasLitTok PAT_CROP s = false ∧ hasLitTok PAT_INSTRUMENT s = false ∧
  hasLitTok PAT_ANIMAL s = false ∧ hasLitTok PAT_POULTRY s = false

instance (s : List Char) : Decidable (tokenFree s) := by
  unfold tokenFree
  infer_instance

theorem replaceDice_id (s : List Char) (r : Rng) (h : hasDiceTok s = false) :
    replaceDice s r = (s, r) := by
  induction s generalizing r with
  | nil => rfl
  | cons c cs ih =>
    rw [hasDiceTok, Bool.or_eq_false_iff] at h
    have hm : matchDice c cs = none := by
      cases hmc : matchDice c cs with
      | none => rfl
      | some val => rw [hmc] at h; exact absurd h.1 (by simp)
    rw [replaceDice_cons_none r hm, ih r h.2]

theorem replaceLit_id (pat : List Char) (f : Rng → List Char × Rng)
    (s : List Char) (r : Rng) (h : hasLitTok pat s = false) :
    replaceLit pat f s r = (s, r) := by
  induction s generalizing r with
  | nil => rfl
  | cons c cs ih =>
    rw [hasLitTok, Bool.or_eq_false_iff] at h
    rw [replaceLit_cons_none pat f r (by simp [h.1]), ih r h.2]

theorem expandGearTemplate_id (s : List Char) (r : Rng) (h : tokenFree s) :
    expandGearTemplate s r = (s, r) := by
  obtain ⟨h0, h1, h2, h3, h4, h5⟩ := h
  unfold expandGearTemplate
  rw [replaceDice_id s r h0]
  dsimp only
  rw [replaceLit_id _ _ s r h1]
  dsimp only
  rw [replaceLit_id _ _ s r h2]
  dsimp only
  rw [replaceLit_id _ _ s r h3]
  dsimp only
  rw [replaceLit_id _ _ s r h4]
  dsimp only
  rw [replaceLit_id _ _ s r h5]

/-- The template grammar of well-formed gear templates: literal chunks free
of braces interleaved with supported tokens. -/
inductive GearPiece where
  | lit : List Char → GearPiece
  | diceTok : List Char → List Char → GearPiece
  | compoundTok : GearPiece
  | cropTok : GearPiece
  | instrumentTok : GearPiece
  | animalTok : GearPiece
  | poultryTok : GearPiece

/-- The concrete text of a piece. -/
def GearPiece.render : GearPiece → List Char
  | .lit s => s
  | .diceTok a b => '{' :: (a ++ 'd' :: (b ++ ['}']))
  | .compoundTok => PAT_COMPOUND
  | .cropTok => PAT_CROP
  | .instrumentTok => PAT_INSTRUMENT
  | .animalTok => PAT_ANIMAL
  | .poultryTok => PAT_POULTRY

/-- Goodness: literal chunks contain no opening brace, dice tokens carry
nonempty digit strings. -/
def GearPiece.good : GearPiece → Prop
  | .lit s => ∀ c ∈ s, c ≠ '{'
  | .diceTok a b => a ≠ [] ∧ b ≠ [] ∧ (∀ c ∈ a, c.isDigit = true) ∧
      (∀ c ∈ b, c.isDigit = true)
  | _ => True

instance (p : GearPiece) : Decidable p.good := by
  cases p <;> (unfold GearPiece.good) <;> infer_instance

/-- The replace pass that consumes each piece, in pass order: dice first,
then the five literal tokens; literal chunks are consumed by no pass. -/
def GearPiece.stage : GearPiece → Nat
  | .diceTok _ _ => 0
  | .compoundTok => 1
  | .cropTok => 2
  | .instrumentTok => 3
  | .animalTok => 4
  | .poultryTok => 5
  | .lit _ => 6

/-- The template text of a piece list. -/
def flattenPieces (ps : List GearPiece) : List Char :=
  (ps.map GearPiece.render).flatten

theorem digitChar_ne_lbrace (n : Nat) : digitChar n ≠ '{' := by
  unfold digitChar
  have h : n % 10 < 10 := Nat.mod_lt _ (by omega)
  have hall : ∀ k : Nat, k < 10 → "0123456789".toList.getD k '0' ≠ '{' := by decide
  exact hall (n % 10) h

theorem natToCharsGo_ne_lbrace (fuel n : Nat) :
    ∀ c ∈ natToCharsGo fuel n, c ≠ '{' := by
  induction fuel generalizing n with
  | zero => simp [natToCharsGo]
  | succ m ih =>
    intro c hc
    rw [natToCharsGo] at hc
    split at hc
    · simp at hc
      exact hc ▸ digitChar_ne_lbrace n
    · rcases List.mem_append.mp hc with hc | hc
      · exact ih (n / 10) c hc
      · simp at hc
        exact hc ▸ digitChar_ne_lbrace n

theorem natToChars_ne_lbrace (n : Nat) : ∀ c ∈ natToChars n, c ≠ '{' :=
  natToCharsGo_ne_lbrace (n + 1) n

theorem getD_str_ne_lbrace (l : List String)
    (hl : ∀ s ∈ l, ∀ c ∈ s.toList, c ≠ '{') (i : Nat) (d : String)
    (hd : ∀ c ∈ d.toList, c ≠ '{') : ∀ c ∈ (l.getD i d).toList, c ≠ '{' := by
  have : l.getD i d = (l.get? i).getD d := by simp [List.getD]
  rw [this]
  cases h : l.get? i with
  | none => simpa using hd
  | some s => simpa using hl s (List.get?_mem h)

theorem compoundChoice_ne_lbrace (r : Rng) : ∀ c ∈ (compoundChoice r).1, c ≠ '{' := by
  unfold compoundChoice
  exact natToChars_ne_lbrace _

theorem cropChoice_ne_lbrace (r : Rng) : ∀ c ∈ (cropChoice r).1, c ≠ '{' := by
  unfold cropChoice
  exact getD_str_ne_lbrace CROPS (by decide) _ "" (by decide)

theorem instrumentChoice_ne_lbrace (r : Rng) :
    ∀ c ∈ (instrumentChoice r).1, c ≠ '{' := by
  unfold instrumentChoice
  exact getD_str_ne_lbrace INSTRUMENTS (by decide) _ "" (by decide)

theorem animalChoice_ne_lbrace (r : Rng) : ∀ c ∈ (animalChoice r).1, c ≠ '{' := by
  unfold animalChoice
  exact getD_str_ne_lbrace ANIMAL_TRAINER_GEAR (by decide) _ "" (by decide)

theorem poultryChoice_ne_lbrace (r : Rng) : ∀ c ∈ (poultryChoice r).1, c ≠ '{' := by
  unfold poultryChoice
  dsimp only
  intro c hc
  have hbird : ∀ v : Nat, ∀ w : List Char, (∀ x ∈ w, x ≠ '{') →
      ∀ x ∈ natToChars v ++ w, x ≠ '{' := by
    intro v w hw x hx
    rcases List.mem_append.mp hx with hx | hx
    · exact natToChars_ne_lbrace v x hx
    · exact hw x hx
  have : (roll 1 4 (roll 1 4 (roll 1 4 (roll 1 6 (roll 1 6 r).2).2).2).2).1 - 1 = 0 ∨
      (roll 1 4 (roll 1 4 (roll 1 4 (roll 1 6 (roll 1 6 r).2).2).2).2).1 - 1 = 1 ∨
      (roll 1 4 (roll 1 4 (roll 1 4 (roll 1 6 (roll 1 6 r).2).2).2).2).1 - 1 = 2 ∨
      (roll 1 4 (roll 1 4 (roll 1 4 (roll 1 6 (roll 1 6 r).2).2).2).2).1 - 1 = 3 ∨
      4 ≤ (roll 1 4 (roll 1 4 (roll 1 4 (roll 1 6 (roll 1 6 r).2).2).2).2).1 - 1 := by
    omega
  rcases this with h | h | h | h | h
  · rw [h] at hc
    refine hbird (roll 1 6 r).1 (" chickens".toList) (by decide) c ?_
    simpa using hc
  · rw [h] at hc
    refine hbird (roll 1 6 (roll 1 6 r).2).1 (" ducks".toList) (by decide) c ?_
    simpa using hc
  · rw [h] at hc
    refine hbird (roll 1 4 (roll 1 6 (roll 1 6 r).2).2).1 (" geese".toList)
      (by decide) c ?_
    simpa using hc
  · rw [h] at hc
    refine hbird (roll 1 4 (roll 1 4 (roll 1 6 (roll 1 6 r).2).2).2).1
      (" swans".toList) (by decide) c ?_
    simpa using hc
  · rw [List.getD_eq_default _ _ (by simpa using h)] at hc
    simp at hc

theorem matchDice_none_of_ne {c : Char} (cs : List Char) (h : c ≠ '{') :
    matchDice c cs = none := by
  unfold matchDice
  rw [if_neg h]

theorem takeDigits_append (d : List Char) (x : Char) (t : List Char)
    (hd : ∀ c ∈ d, c.isDigit = true) (hx : x.isDigit = false) :
    takeDigits (d ++ x :: t) = (d, x :: t) := by
  induction d with
  | nil => simp [takeDigits, hx]
  | cons c cs ih =>
    have hc : c.isDigit = true := hd c (by simp)
    rw [List.cons_append, takeDigits, if_pos hc,
      ih (fun e he => hd e (by simp [he]))]

theorem matchDice_token (a b t : List Char)
    (ha : a ≠ []) (hb : b ≠ []) (hda : ∀ c ∈ a, c.isDigit = true)
    (hdb : ∀ c ∈ b, c.isDigit = true) :
    matchDice '{' (a ++ 'd' :: (b ++ '}' :: t)) =
      some (charsToNat a, charsToNat b, t) := by
  unfold matchDice
  rw [if_pos rfl, takeDigits_append a 'd' (b ++ '}' :: t) hda (by decide)]
  dsimp only
  rw [if_neg ha, if_pos rfl, takeDigits_append b '}' t hdb (by decide)]
  dsimp only
  rw [if_neg hb, if_pos rfl]

theorem matchDice_none_not_digit (x : Char) (rest : List Char)
    (hx : x.isDigit = false) : matchDice '{' (x :: rest) = none := by
  have hxd : ¬(x.isDigit = true) := by simp [hx]
  unfold matchDice
  rw [if_pos rfl, takeDigits, if_neg hxd]
  dsimp only
  rw [if_pos rfl]

theorem matchDice_none_after_digits (d : List Char) (x : Char) (rest : List Char)
    (hd : d ≠ []) (hdd : ∀ c ∈ d, c.isDigit = true) (hx : x.isDigit = false)
    (hxd : x ≠ 'd') : matchDice '{' (d ++ x :: rest) = none := by
  unfold matchDice
  rw [if_pos rfl, takeDigits_append d x rest hdd hx]
  dsimp only
  rw [if_neg hd, if_neg hxd]

theorem replaceDice_append_noLB (s t : List Char) (r : Rng)
    (hs : ∀ c ∈ s, c ≠ '{') :
    replaceDice (s ++ t) r = (s ++ (replaceDice t r).1, (replaceDice t r).2) := by
  induction s generalizing r with
  | nil => simp
  | cons c cs ih =>
    have hm : matchDice c (cs ++ t) = none :=
      matchDice_none_of_ne _ (hs c (by simp))
    rw [List.cons_append, replaceDice_cons_none r hm,
      ih r (fun e he => hs e (by simp [he]))]
    simp

theorem replaceDice_diceTok (a b t : List Char) (r : Rng)
    (ha : a ≠ []) (hb : b ≠ []) (hda : ∀ c ∈ a, c.isDigit = true)
    (hdb : ∀ c ∈ b, c.isDigit = true) :
    replaceDice (('{' :: (a ++ 'd' :: (b ++ ['}']))) ++ t) r =
      (natToChars (roll (charsToNat a) (charsToNat b) r).1 ++
        (replaceDice t (roll (charsToNat a) (charsToNat b) r).2).1,
       (replaceDice t (roll (charsToNat a) (charsToNat b) r).2).2) := by
  have hshape : ('{' :: (a ++ 'd' :: (b ++ ['}']))) ++ t =
      '{' :: (a ++ 'd' :: (b ++ '}' :: t)) := by simp
  rw [hshape, replaceDice_cons_match r (matchDice_token a b t ha hb hda hdb)]

theorem startsWith_append_self (p t : List Char) : startsWith p (p ++ t) = true := by
  induction p with
  | nil => rfl
  | cons c cs ih => simp [startsWith, ih]

theorem startsWith_false_head {p0 c : Char} (pt rest : List Char) (h : p0 ≠ c) :
    startsWith (p0 :: pt) (c :: rest) = false := by
  simp [startsWith]
  intro hc
  exact absurd hc h

theorem startsWith_false_nil (p0 : Char) (pt : List Char) :
    startsWith (p0 :: pt) [] = false := rfl

theorem startsWith_ne_second {p0 p1 c0 c1 : Char} (pt rest : List Char)
    (h : p1 ≠ c1) : startsWith (p0 :: p1 :: pt) (c0 :: c1 :: rest) = false := by
  simp [startsWith]
  intro _ hc
  exact absurd hc h

theorem replaceLit_append_noLB (pat : List Char) (f : Rng → List Char × Rng)
    (pt : List Char) (hpat : pat = '{' :: pt)
    (s t : List Char) (r : Rng) (hs : ∀ c ∈ s, c ≠ '{') :
    replaceLit pat f (s ++ t) r =
      (s ++ (replaceLit pat f t r).1, (replaceLit pat f t r).2) := by
  induction s generalizing r with
  | nil => simp
  | cons c cs ih =>
    have hsw : startsWith pat (c :: (cs ++ t)) = false := by
      rw [hpat]
      exact startsWith_false_head pt (cs ++ t) (fun he => hs c (by simp) he.symm)
    rw [List.cons_append, replaceLit_cons_none pat f r (by simp [hsw]),
      ih r (fun e he => hs e (by simp [he]))]
    simp

theorem replaceLit_pat_append (pat : List Char) (f : Rng → List Char × Rng)
    (hpat : pat ≠ []) (t : List Char) (r : Rng) :
    replaceLit pat f (pat ++ t) r =
      ((f r).1 ++ (replaceLit pat f t (f r).2).1,
       (replaceLit pat f t (f r).2).2) := by
  cases hp : pat with
  | nil => exact absurd hp hpat
  | cons p ps =>
    have hsw : startsWith (p :: ps) ((p :: ps) ++ t) = true :=
      startsWith_append_self (p :: ps) t
    rw [List.cons_append] at hsw ⊢
    rw [replaceLit_cons_match (p :: ps) f r (by simp) hsw]
    have hdrop : (p :: (ps ++ t)).drop (p :: ps).length = t := by
      simpa using List.drop_left (p :: ps) t
    rw [hdrop]

theorem replaceDice_token_passthru (qt t : List Char) (r : Rng)
    (hq : ∀ c ∈ qt, c ≠ '{') (hm : matchDice '{' (qt ++ t) = none) :
    replaceDice (('{' :: qt) ++ t) r =
      ('{' :: (qt ++ (replaceDice t r).1), (replaceDice t r).2) := by
  rw [List.cons_append, replaceDice_cons_none r hm,
    replaceDice_append_noLB qt t r hq]

theorem replaceLit_token_passthru (pat : List Char) (f : Rng → List Char × Rng)
    (pt : List Char) (hpat : pat = '{' :: pt) (qt t : List Char) (r : Rng)
    (hq : ∀ c ∈ qt, c ≠ '{') (hsw : startsWith pat ('{' :: (qt ++ t)) = false) :
    replaceLit pat f (('{' :: qt) ++ t) r =
      ('{' :: (qt ++ (replaceLit pat f t r).1), (replaceLit pat f t r).2) := by
  rw [List.cons_append, replaceLit_cons_none pat f r (by simp [hsw]),
    replaceLit_append_noLB pat f pt hpat qt t r hq]

theorem flattenPieces_nil : flattenPieces [] = [] := rfl

theorem flattenPieces_cons (p : GearPiece) (ps : List GearPiece) :
    flattenPieces (p :: ps) = p.render ++ flattenPieces ps := by
  simp [flattenPieces]

/-- Pass 1 on a well-formed template: every dice token is replaced by a
brace-free digit chunk; every other piece passes through unchanged. -/
theorem replaceDice_flatten :
    ∀ ps : List GearPiece, ∀ r : Rng, (∀ p ∈ ps, p.good) →
    ∃ qs : List GearPiece, (∀ q ∈ qs, q.good ∧ 1 ≤ q.stage) ∧
      (replaceDice (flattenPieces ps) r).1 = flattenPieces qs := by
  intro ps
  induction ps with
  | nil => exact fun r _ => ⟨[], by simp, by rw [flattenPieces_nil, replaceDice_nil]⟩
  | cons p ps ih =>
    intro r h
    have hp := h p (by simp)
    have hps : ∀ q ∈ ps, q.good := fun q hq => h q (by simp [hq])
    rw [flattenPieces_cons]
    cases p with
    | lit s =>
      obtain ⟨qs, hqs, hout⟩ := ih r hps
      refine ⟨GearPiece.lit s :: qs, ?_, ?_⟩
      · intro q hq
        rcases List.mem_cons.mp hq with rfl | hq
        · exact ⟨hp, by simp [GearPiece.stage]⟩
        · exact hqs q hq
      · rw [GearPiece.render, replaceDice_append_noLB s _ r hp,
          flattenPieces_cons, GearPiece.render, hout]
    | diceTok a b =>
      obtain ⟨ha, hb, hda, hdb⟩ := hp
      rw [GearPiece.render, replaceDice_diceTok a b _ r ha hb hda hdb]
      obtain ⟨qs, hqs, hout⟩ :=
        ih (roll (charsToNat a) (charsToNat b) r).2 hps
      refine ⟨GearPiece.lit (natToChars (roll (charsToNat a) (charsToNat b) r).1)
          :: qs, ?_, ?_⟩
      · intro q hq
        rcases List.mem_cons.mp hq with rfl | hq
        · exact ⟨natToChars_ne_lbrace _, by simp [GearPiece.stage]⟩
        · exact hqs q hq
      · rw [flattenPieces_cons, GearPiece.render, hout]
    | compoundTok =>
      have hm : matchDice '{' ((['2'] ++ '+' ::
          ['1', 'd', '4', '*', '2', '}']) ++ flattenPieces ps) = none := by
        rw [List.append_assoc, List.cons_append]
        exact matchDice_none_after_digits ['2'] '+' _ (by simp) (by decide)
          (by decide) (by decide)
      obtain ⟨qs, hqs, hout⟩ := ih r hps
      refine ⟨GearPiece.compoundTok :: qs, ?_, ?_⟩
      · intro q hq
        rcases List.mem_cons.mp hq with rfl | hq
        · exact ⟨trivial, by simp [GearPiece.stage]⟩
        · exact hqs q hq
      · rw [GearPiece.render, show PAT_COMPOUND =
            '{' :: ['2', '+', '1', 'd', '4', '*', '2', '}'] from rfl,
          replaceDice_token_passthru _ _ r (by decide) (by simpa using hm),
          flattenPieces_cons, GearPiece.render, hout]
        simp [PAT_COMPOUND]
    | cropTok =>
      obtain ⟨qs, hqs, hout⟩ := ih r hps
      refine ⟨GearPiece.cropTok :: qs, ?_, ?_⟩
      · intro q hq
        rcases List.mem_cons.mp hq with rfl | hq
        · exact ⟨trivial, by simp [GearPiece.stage]⟩
        · exact hqs q hq
      · rw [GearPiece.render, show PAT_CROP =
            '{' :: ['c', 'r', 'o', 'p', '}'] from rfl,
          replaceDice_token_passthru _ _ r (by decide)
            (matchDice_none_not_digit 'c' _ (by decide)),
          flattenPieces_cons, GearPiece.render, hout]
        simp [PAT_CROP]
    | instrumentTok =>
      obtain ⟨qs, hqs, hout⟩ := ih r hps
      refine ⟨GearPiece.instrumentTok :: qs, ?_, ?_⟩
      · intro q hq
        rcases List.mem_cons.mp hq with rfl | hq
        · exact ⟨trivial, by simp [GearPiece.stage]⟩
        · exact hqs q hq
      · rw [GearPiece.render, show PAT_INSTRUMENT =
            '{' :: ['i', 'n', 's', 't', 'r', 'u', 'm', 'e', 'n', 't', '}'] from rfl,
          replaceDice_token_passthru _ _ r (by decide)
            (matchDice_none_not_digit 'i' _ (by decide)),
          flattenPieces_cons, GearPiece.render, hout]
        simp [PAT_INSTRUMENT]
    | animalTok =>
      obtain ⟨qs, hqs, hout⟩ := ih r hps
      refine ⟨GearPiece.animalTok :: qs, ?_, ?_⟩
      · intro q hq
        rcases List.mem_cons.mp hq with rfl | hq
        · exact ⟨trivial, by simp [GearPiece.stage]⟩
        · exact hqs q hq
      · rw [GearPiece.render, show PAT_ANIMAL =
            '{' :: ['a', 'n', 'i', 'm', 'a', 'l', '_', 't', 'r', 'a', 'i', 'n',
              'e', 'r', '_', 'g', 'e', 'a', 'r', '}'] from rfl,
          replaceDice_token_passthru _ _ r (by decide)
            (matchDice_none_not_digit 'a' _ (by decide)),
          flattenPieces_cons, GearPiece.render, hout]
        simp [PAT_ANIMAL]
    | poultryTok =>
      obtain ⟨qs, hqs, hout⟩ := ih r hps
      refine ⟨GearPiece.poultryTok :: qs, ?_, ?_⟩
      · intro q hq
        rcases List.mem_cons.mp hq with rfl | hq
        · exact ⟨trivial, by simp [GearPiece.stage]⟩
        · exact hqs q hq
      · rw [GearPiece.render, show PAT_POULTRY =
            '{' :: ['p', 'o', 'u', 'l', 't', 'r', 'y', '}'] from rfl,
          replaceDice_token_passthru _ _ r (by decide)
            (matchDice_none_not_digit 'p' _ (by decide)),
          flattenPieces_cons, GearPiece.render, hout]
        simp [PAT_POULTRY]

/-- A literal replace pass over a flattened piece list: occurrences of the
pattern are replaced by brace-free text, every other piece passes through. -/
theorem replaceLit_flatten_pass (p1 : Char) (pt : List Char)
    (f : Rng → List Char × Rng) (hf : ∀ r : Rng, ∀ c ∈ (f r).1, c ≠ '{') :
    ∀ ps : List GearPiece, ∀ r : Rng,
    (∀ p ∈ ps,
      (p.render = '{' :: p1 :: pt ∨
       (∀ c ∈ p.render, c ≠ '{') ∨
       (∃ c1 qt, p.render = '{' :: c1 :: qt ∧ c1 ≠ p1 ∧
         ∀ c ∈ c1 :: qt, c ≠ '{'))) →
    ∃ qs : List GearPiece,
      (∀ q ∈ qs, (q ∈ ps ∧ q.render ≠ '{' :: p1 :: pt) ∨
        (∃ s, q = GearPiece.lit s ∧ ∀ c ∈ s, c ≠ '{')) ∧
      (replaceLit ('{' :: p1 :: pt) f (flattenPieces ps) r).1 =
        flattenPieces qs := by
  intro ps
  induction ps with
  | nil =>
    exact fun r _ => ⟨[], by simp, by rw [flattenPieces_nil, replaceLit_nil]⟩
  | cons p ps ih =>
    intro r h
    have hp := h p (by simp)
    have hps : ∀ q ∈ ps, _ := fun q hq => h q (by simp [hq])
    rw [flattenPieces_cons]
    rcases hp with hA | hB | ⟨c1, qt, hr, hne, hq⟩
    · rw [hA, replaceLit_pat_append ('{' :: p1 :: pt) f (by simp)
        (flattenPieces ps) r]
      obtain ⟨qs, hqs, hout⟩ := ih (f r).2 hps
      refine ⟨GearPiece.lit (f r).1 :: qs, ?_, ?_⟩
      · intro q hq
        rcases List.mem_cons.mp hq with rfl | hq
        · exact Or.inr ⟨(f r).1, rfl, hf r⟩
        · rcases hqs q hq with ⟨hm, hn⟩ | hnew
          · exact Or.inl ⟨by simp [hm], hn⟩
          · exact Or.inr hnew
      · rw [flattenPieces_cons, GearPiece.render, hout]
    · rw [replaceLit_append_noLB ('{' :: p1 :: pt) f (p1 :: pt) rfl
        p.render (flattenPieces ps) r hB]
      obtain ⟨qs, hqs, hout⟩ := ih r hps
      refine ⟨p :: qs, ?_, ?_⟩
      · intro q hq
        rcases List.mem_cons.mp hq with rfl | hq
        · refine Or.inl ⟨by simp, fun he => ?_⟩
          exact hB '{' (by rw [he]; simp) rfl
        · rcases hqs q hq with ⟨hm, hn⟩ | hnew
          · exact Or.inl ⟨by simp [hm], hn⟩
          · exact Or.inr hnew
      · rw [flattenPieces_cons, hout]
    · rw [hr, replaceLit_token_passthru ('{' :: p1 :: pt) f (p1 :: pt) rfl
        (c1 :: qt) (flattenPieces ps) r hq
        (startsWith_ne_second pt (qt ++ flattenPieces ps) (Ne.symm hne))]
      obtain ⟨qs, hqs, hout⟩ := ih r hps
      refine ⟨p :: qs, ?_, ?_⟩
      · intro q hq2
        rcases List.mem_cons.mp hq2 with rfl | hq2
        · refine Or.inl ⟨by simp, fun he => ?_⟩
          rw [hr] at he
          simp only [List.cons.injEq] at he
          exact hne he.2.1
        · rcases hqs q hq2 with ⟨hm, hn⟩ | hnew
          · exact Or.inl ⟨by simp [hm], hn⟩
          · exact Or.inr hnew
      · rw [flattenPieces_cons, hr, hout]
        simp

/-- Pass 2 consumes the compoundTok pieces and keeps every later token intact. -/
theorem pass2_flatten (ps : List GearPiece) (r : Rng)
    (h : ∀ p ∈ ps, p.good ∧ 1 ≤ p.stage) :
    ∃ qs : List GearPiece, (∀ q ∈ qs, q.good ∧ 2 ≤ q.stage) ∧
      (replaceLit PAT_COMPOUND compoundChoice (flattenPieces ps) r).1 = flattenPieces qs := by
  have hin : ∀ p ∈ ps,
      (p.render = '{' :: '2' :: ['+', '1', 'd', '4', '*', '2', '}'] ∨
       (∀ c ∈ p.render, c ≠ '{') ∨
       (∃ c1 qt, p.render = '{' :: c1 :: qt ∧ c1 ≠ '2' ∧
         ∀ c ∈ c1 :: qt, c ≠ '{')) := by
    intro p hp
    obtain ⟨hg, hs⟩ := h p hp
    cases p with
    | lit s => exact Or.inr (Or.inl hg)
    | diceTok a b => simp [GearPiece.stage] at hs
    | compoundTok => exact Or.inl rfl
    | cropTok =>
      exact Or.inr (Or.inr ⟨'c', ['r', 'o', 'p', '}'], rfl, by decide, by decide⟩)
    | instrumentTok =>
      exact Or.inr (Or.inr ⟨'i', ['n', 's', 't', 'r', 'u', 'm', 'e', 'n', 't', '}'], rfl, by decide, by decide⟩)
    | animalTok =>
      exact Or.inr (Or.inr ⟨'a', ['n', 'i', 'm', 'a', 'l', '_', 't', 'r', 'a', 'i', 'n', 'e', 'r', '_', 'g', 'e', 'a', 'r', '}'], rfl, by decide, by decide⟩)
    | poultryTok =>
      exact Or.inr (Or.inr ⟨'p', ['o', 'u', 'l', 't', 'r', 'y', '}'], rfl, by decide, by decide⟩)
  obtain ⟨qs, hqs, hout⟩ :=
    replaceLit_flatten_pass '2' ['+', '1', 'd', '4', '*', '2', '}'] compoundChoice compoundChoice_ne_lbrace ps r hin
  refine ⟨qs, ?_, hout⟩
  intro q hq
  rcases hqs q hq with ⟨hm, hne⟩ | ⟨s, rfl, hS⟩
  · obtain ⟨hg, hs⟩ := h q hm
    refine ⟨hg, ?_⟩
    cases q with
    | lit s => simp [GearPiece.stage]
    | diceTok a b => simp [GearPiece.stage] at hs
    | compoundTok => exact absurd rfl hne
    | cropTok => simp [GearPiece.stage]
    | instrumentTok => simp [GearPiece.stage]
    | animalTok => simp [GearPiece.stage]
    | poultryTok => simp [GearPiece.stage]
  · exact ⟨hS, by simp [GearPiece.stage]⟩

/-- Pass 3 consumes the cropTok pieces and keeps every later token intact. -/
theorem pass3_flatten (ps : List GearPiece) (r : Rng)
    (h : ∀ p ∈ ps, p.good ∧ 2 ≤ p.stage) :
    ∃ qs : List GearPiece, (∀ q ∈ qs, q.good ∧ 3 ≤ q.stage) ∧
      (replaceLit PAT_CROP cropChoice (flattenPieces ps) r).1 = flattenPieces qs := by
  have hin : ∀ p ∈ ps,
      (p.render = '{' :: 'c' :: ['r', 'o', 'p', '}'] ∨
       (∀ c ∈ p.render, c ≠ '{') ∨
       (∃ c1 qt, p.render = '{' :: c1 :: qt ∧ c1 ≠ 'c' ∧
         ∀ c ∈ c1 :: qt, c ≠ '{')) := by
    intro p hp
    obtain ⟨hg, hs⟩ := h p hp
    cases p with
    | lit s => exact Or.inr (Or.inl hg)
    | diceTok a b => simp [GearPiece.stage] at hs
    | compoundTok => simp [GearPiece.stage] at hs
    | cropTok => exact Or.inl rfl
    | instrumentTok =>
      exact Or.inr (Or.inr ⟨'i', ['n', 's', 't', 'r', 'u', 'm', 'e', 'n', 't', '}'], rfl, by decide, by decide⟩)
    | animalTok =>
      exact Or.inr (Or.inr ⟨'a', ['n', 'i', 'm', 'a', 'l', '_', 't', 'r', 'a', 'i', 'n', 'e', 'r', '_', 'g', 'e', 'a', 'r', '}'], rfl, by decide, by decide⟩)
    | poultryTok =>
      exact Or.inr (Or.inr ⟨'p', ['o', 'u', 'l', 't', 'r', 'y', '}'], rfl, by decide, by decide⟩)
  obtain ⟨qs, hqs, hout⟩ :=
    replaceLit_flatten_pass 'c' ['r', 'o', 'p', '}'] cropChoice cropChoice_ne_lbrace ps r hin
  refine ⟨qs, ?_, hout⟩
  intro q hq
  rcases hqs q hq with ⟨hm, hne⟩ | ⟨s, rfl, hS⟩
  · obtain ⟨hg, hs⟩ := h q hm
    refine ⟨hg, ?_⟩
    cases q with
    | lit s => simp [GearPiece.stage]
    | diceTok a b => simp [GearPiece.stage] at hs
    | compoundTok => simp [GearPiece.stage] at hs
    | cropTok => exact absurd rfl hne
    | instrumentTok => simp [GearPiece.stage]
    | animalTok => simp [GearPiece.stage]
    | poultryTok => simp [GearPiece.stage]
  · exact ⟨hS, by simp [GearPiece.stage]⟩

/-- Pass 4 consumes the instrumentTok pieces and keeps every later token intact. -/
theorem pass4_flatten (ps : List GearPiece) (r : Rng)
    (h : ∀ p ∈ ps, p.good ∧ 3 ≤ p.stage) :
    ∃ qs : List GearPiece, (∀ q ∈ qs, q.good ∧ 4 ≤ q.stage) ∧
      (replaceLit PAT_INSTRUMENT instrumentChoice (flattenPieces ps) r).1 = flattenPieces qs := by
  have hin : ∀ p ∈ ps,
      (p.render = '{' :: 'i' :: ['n', 's', 't', 'r', 'u', 'm', 'e', 'n', 't', '}'] ∨
       (∀ c ∈ p.render, c ≠ '{') ∨
       (∃ c1 qt, p.render = '{' :: c1 :: qt ∧ c1 ≠ 'i' ∧
         ∀ c ∈ c1 :: qt, c ≠ '{')) := by
    intro p hp
    obtain ⟨hg, hs⟩ := h p hp
    cases p with
    | lit s => exact Or.inr (Or.inl hg)
    | diceTok a b => simp [GearPiece.stage] at hs
    | compoundTok => simp [GearPiece.stage] at hs
    | cropTok => simp [GearPiece.stage] at hs
    | instrumentTok => exact Or.inl rfl
    | animalTok =>
      exact Or.inr (Or.inr ⟨'a', ['n', 'i', 'm', 'a', 'l', '_', 't', 'r', 'a', 'i', 'n', 'e', 'r', '_', 'g', 'e', 'a', 'r', '}'], rfl, by decide, by decide⟩)
    | poultryTok =>
      exact Or.inr (Or.inr ⟨'p', ['o', 'u', 'l', 't', 'r', 'y', '}'], rfl, by decide, by decide⟩)
  obtain ⟨qs, hqs, hout⟩ :=
    replaceLit_flatten_pass 'i' ['n', 's', 't', 'r', 'u', 'm', 'e', 'n', 't', '}'] instrumentChoice instrumentChoice_ne_lbrace ps r hin
  refine ⟨qs, ?_, hout⟩
  intro q hq
  rcases hqs q hq with ⟨hm, hne⟩ | ⟨s, rfl, hS⟩
  · obtain ⟨hg, hs⟩ := h q hm
    refine ⟨hg, ?_⟩
    cases q with
    | lit s => simp [GearPiece.stage]
    | diceTok a b => simp [GearPiece.stage] at hs
    | compoundTok => simp [GearPiece.stage] at hs
    | cropTok => simp [GearPiece.stage] at hs
    | instrumentTok => exact absurd rfl hne
    | animalTok => simp [GearPiece.stage]
    | poultryTok => simp [GearPiece.stage]
  · exact ⟨hS, by simp [GearPiece.stage]⟩

/-- Pass 5 consumes the animalTok pieces and keeps every later token intact. -/
theorem pass5_flatten (ps : List GearPiece) (r : Rng)
    (h : ∀ p ∈ ps, p.good ∧ 4 ≤ p.stage) :
    ∃ qs : List GearPiece, (∀ q ∈ qs, q.good ∧ 5 ≤ q.stage) ∧
      (replaceLit PAT_ANIMAL animalChoice (flattenPieces ps) r).1 = flattenPieces qs := by
  have hin : ∀ p ∈ ps,
      (p.render = '{' :: 'a' :: ['n', 'i', 'm', 'a', 'l', '_', 't', 'r', 'a', 'i', 'n', 'e', 'r', '_', 'g', 'e', 'a', 'r', '}'] ∨
       (∀ c ∈ p.render, c ≠ '{') ∨
       (∃ c1 qt, p.render = '{' :: c1 :: qt ∧ c1 ≠ 'a' ∧
         ∀ c ∈ c1 :: qt, c ≠ '{')) := by
    intro p hp
    obtain ⟨hg, hs⟩ := h p hp
    cases p with
    | lit s => exact Or.inr (Or.inl hg)
    | diceTok a b => simp [GearPiece.stage] at hs
    | compoundTok => simp [GearPiece.stage] at hs
    | cropTok => simp [GearPiece.stage] at hs
    | instrumentTok => simp [GearPiece.stage] at hs
    | animalTok => exact Or.inl rfl
    | poultryTok =>
      exact Or.inr (Or.inr ⟨'p', ['o', 'u', 'l', 't', 'r', 'y', '}'], rfl, by decide, by decide⟩)
  obtain ⟨qs, hqs, hout⟩ :=
    replaceLit_flatten_pass 'a' ['n', 'i', 'm', 'a', 'l', '_', 't', 'r', 'a', 'i', 'n', 'e', 'r', '_', 'g', 'e', 'a', 'r', '}'] animalChoice animalChoice_ne_lbrace ps r hin
  refine ⟨qs, ?_, hout⟩
  intro q hq
  rcases hqs q hq with ⟨hm, hne⟩ | ⟨s, rfl, hS⟩
  · obtain ⟨hg, hs⟩ := h q hm
    refine ⟨hg, ?_⟩
    cases q with
    | lit s => simp [GearPiece.stage]
    | diceTok a b => simp [GearPiece.stage] at hs
    | compoundTok => simp [GearPiece.stage] at hs
    | cropTok => simp [GearPiece.stage] at hs
    | instrumentTok => simp [GearPiece.stage] at hs
    | animalTok => exact absurd rfl hne
    | poultryTok => simp [GearPiece.stage]
  · exact ⟨hS, by simp [GearPiece.stage]⟩

/-- Pass 6 consumes the poultryTok pieces and keeps every later token intact. -/
theorem pass6_flatten (ps : List GearPiece) (r : Rng)
    (h : ∀ p ∈ ps, p.good ∧ 5 ≤ p.stage) :
    ∃ qs : List GearPiece, (∀ q ∈ qs, q.good ∧ 6 ≤ q.stage) ∧
      (replaceLit PAT_POULTRY poultryChoice (flattenPieces ps) r).1 = flattenPieces qs := by
  have hin : ∀ p ∈ ps,
      (p.render = '{' :: 'p' :: ['o', 'u', 'l', 't', 'r', 'y', '}'] ∨
       (∀ c ∈ p.render, c ≠ '{') ∨
       (∃ c1 qt, p.render = '{' :: c1 :: qt ∧ c1 ≠ 'p' ∧
         ∀ c ∈ c1 :: qt, c ≠ '{')) := by
    intro p hp
    obtain ⟨hg, hs⟩ := h p hp
    cases p with
    | lit s => exact Or.inr (Or.inl hg)
    | diceTok a b => simp [GearPiece.stage] at hs
    | compoundTok => simp [GearPiece.stage] at hs
    | cropTok => simp [GearPiece.stage] at hs
    | instrumentTok => simp [GearPiece.stage] at hs
    | animalTok => simp [GearPiece.stage] at hs
    | poultryTok => exact Or.inl rfl
  obtain ⟨qs, hqs, hout⟩ :=
    replaceLit_flatten_pass 'p' ['o', 'u', 'l', 't', 'r', 'y', '}'] poultryChoice poultryChoice_ne_lbrace ps r hin
  refine ⟨qs, ?_, hout⟩
  intro q hq
  rcases hqs q hq with ⟨hm, hne⟩ | ⟨s, rfl, hS⟩
  · obtain ⟨hg, hs⟩ := h q hm
    refine ⟨hg, ?_⟩
    cases q with
    | lit s => simp [GearPiece.stage]
    | diceTok a b => simp [GearPiece.stage] at hs
    | compoundTok => simp [GearPiece.stage] at hs
    | cropTok => simp [GearPiece.stage] at hs
    | instrumentTok => simp [GearPiece.stage] at hs
    | animalTok => simp [GearPiece.stage] at hs
    | poultryTok => exact absurd rfl hne
  · exact ⟨hS, by simp [GearPiece.stage]⟩

theorem flattenPieces_no_lbrace (qs : List GearPiece)
    (h : ∀ q ∈ qs, q.good ∧ 6 ≤ q.stage) :
    ∀ c ∈ flattenPieces qs, c ≠ '{' := by
  intro c hc
  unfold flattenPieces at hc
  rw [List.mem_flatten] at hc
  obtain ⟨l, hl, hcl⟩ := hc
  rw [List.mem_map] at hl
  obtain ⟨q, hq, rfl⟩ := hl
  obtain ⟨hg, hs⟩ := h q hq
  cases q with
  | lit s => exact hg c hcl
  | diceTok a b => simp [GearPiece.stage] at hs
  | compoundTok => simp [GearPiece.stage] at hs
  | cropTok => simp [GearPiece.stage] at hs
  | instrumentTok => simp [GearPiece.stage] at hs
  | animalTok => simp [GearPiece.stage] at hs
  | poultryTok => simp [GearPiece.stage] at hs

theorem hasDiceTok_false_of_no_lbrace (s : List Char) (h : ∀ c ∈ s, c ≠ '{') :
    hasDiceTok s = false := by
  induction s with
  | nil => rfl
  | cons c cs ih =>
    rw [hasDiceTok, matchDice_none_of_ne cs (h c (by simp)),
      ih (fun e he => h e (by simp [he]))]
    rfl

theorem hasLitTok_false_of_no_lbrace (pt : List Char) (s : List Char)
    (h : ∀ c ∈ s, c ≠ '{') : hasLitTok ('{' :: pt) s = false := by
  induction s with
  | nil => rfl
  | cons c cs ih =>
    rw [hasLitTok, startsWith_false_head pt cs (fun he => h c (by simp) he.symm),
      ih (fun e he => h e (by simp [he]))]
    rfl

theorem tokenFree_of_no_lbrace (s : List Char) (h : ∀ c ∈ s, c ≠ '{') :
    tokenFree s :=
  ⟨hasDiceTok_false_of_no_lbrace s h, hasLitTok_false_of_no_lbrace _ s h,
   hasLitTok_false_of_no_lbrace _ s h, hasLitTok_false_of_no_lbrace _ s h,
   hasLitTok_false_of_no_lbrace _ s h, hasLitTok_false_of_no_lbrace _ s h⟩

theorem expandGearTemplate_no_lbrace (ps : List GearPiece) (r : Rng)
    (h : ∀ p ∈ ps, p.good) :
    ∀ c ∈ (expandGearTemplate (flattenPieces ps) r).1, c ≠ '{' := by
  unfold expandGearTemplate
  dsimp only
  obtain ⟨qs1, h1, e1⟩ := replaceDice_flatten ps r h
  rw [e1]
  obtain ⟨qs2, h2, e2⟩ := pass2_flatten qs1 (replaceDice (flattenPieces ps) r).2 h1
  rw [e2]
  obtain ⟨qs3, h3, e3⟩ := pass3_flatten qs2
    (replaceLit PAT_COMPOUND compoundChoice (flattenPieces qs1)
      (replaceDice (flattenPieces ps) r).2).2 h2
  rw [e3]
  obtain ⟨qs4, h4, e4⟩ := pass4_flatten qs3
    (replaceLit PAT_CROP cropChoice (flattenPieces qs2)
      (replaceLit PAT_COMPOUND compoundChoice (flattenPieces qs1)
        (replaceDice (flattenPieces ps) r).2).2).2 h3
  rw [e4]
  obtain ⟨qs5, h5, e5⟩ := pass5_flatten qs4
    (replaceLit PAT_INSTRUMENT instrumentChoice (flattenPieces qs3)
      (replaceLit PAT_CROP cropChoice (flattenPieces qs2)
        (replaceLit PAT_COMPOUND compoundChoice (flattenPieces qs1)
          (replaceDice (flattenPieces ps) r).2).2).2).2 h4
  rw [e5]
  obtain ⟨qs6, h6, e6⟩ := pass6_flatten qs5
    (replaceLit PAT_ANIMAL animalChoice (flattenPieces qs4)
      (replaceLit PAT_INSTRUMENT instrumentChoice (flattenPieces qs3)
        (replaceLit PAT_CROP cropChoice (flattenPieces qs2)
          (replaceLit PAT_COMPOUND compoundChoice (flattenPieces qs1)
            (replaceDice (flattenPieces ps) r).2).2).2).2).2 h5
  rw [e6]
  exact flattenPieces_no_lbrace qs6 h6

/-- C4 (amended): expandGearTemplate is the identity (text and random
source) on token-free input; and on any well-formed template, a
concatenation of brace-free literal chunks and supported tokens, every
token occurrence is substituted and the output contains no supported token
at all, for every sequence of dice outcomes. -/
theorem expandGearTemplate_total :
    (∀ s : List Char, ∀ r : Rng, tokenFree s → expandGearTemplate s r = (s, r)) ∧
    (∀ ps : List GearPiece, ∀ r : Rng, (∀ p ∈ ps, p.good) →
      tokenFree (expandGearTemplate (flattenPieces ps) r).1) :=
  ⟨expandGearTemplate_id, fun ps r h =>
    tokenFree_of_no_lbrace _ (expandGearTemplate_no_lbrace ps r h)⟩

/-- C4 witness: identity on a concrete token-free gear string, and a
token-free expansion of a concrete well-formed template. -/
theorem expandGearTemplate_total_witness :
    expandGearTemplate "hammer (1 wt)".toList rng0 = ("hammer (1 wt)".toList, rng0) ∧
    tokenFree (expandGearTemplate (flattenPieces
      [GearPiece.lit "spade and ".toList, GearPiece.diceTok ['1'] ['6'],
       GearPiece.cropTok]) rng0).1 :=
  ⟨expandGearTemplate_total.1 _ rng0 (by decide),
   expandGearTemplate_total.2 _ rng0 (by decide)⟩

/-- C4 counterexample: the input made of the characters of a brace, 1, a
nested dice token, d, 6, and a closing brace contains a supported dice
token, yet its expansion leaves a supported dice token in the output: the
claim that no residual token ever remains fails on nested braces. -/
theorem expandGearTemplate_residual_token :
    hasDiceTok ['{', '1', '{', '1', 'd', '6', '}', 'd', '6', '}'] = true ∧
    (expandGearTemplate ['{', '1', '{', '1', 'd', '6', '}', 'd', '6', '}'] rng0).1 =
      ['{', '1', '1', 'd', '6', '}'] ∧
    hasDiceTok
      (expandGearTemplate ['{', '1', '{', '1', 'd', '6', '}', 'd', '6', '}'] rng0).1
      = true ∧
    ¬ tokenFree
      (expandGearTemplate ['{', '1', '{', '1', 'd', '6', '}', 'd', '6', '}'] rng0).1 := by
  refine ⟨by decide, by decide, by decide, by decide⟩
